import Mathlib

/-!
# Verification of the lazy filesystem tree model

Shallow embedding of `gpt_engineer/applications/gui/file_tree_model.py`:
the `FileTreeItem` node store and the `FileTreeModel` adapter built on
`QAbstractItemModel`.

Modelling choices:
* A filesystem path is a list of segments (`Path`); a child path is
  `parent ++ [name]` and `path.name` is the last segment.
* The filesystem is a structure `FS`: `isDir` mirrors `pathlib.Path.is_dir`
  (total, `false` on a missing path, since `is_dir` swallows `OSError`), and
  `listdir` mirrors forcing `path.iterdir()` — it either yields the entry
  names or raises, modelled as `Except Unit`.
* The mutable Python objects are modelled by a `Store`: an association list
  from a node's path to its mutable state (`child_items` as the ordered list
  of child entry names, and the `loaded` flag).  Within one model instance
  every reachable node has a unique path, so path-keyed state is faithful.
  A path absent from the store reads as the freshly-constructed state
  (`child_items = []`, `loaded = false`), exactly the state `__init__` gives
  a new `FileTreeItem`.
* Python code that can raise is embedded in `Except Unit`; state-mutating
  operations return the updated store.
* `sorted(self.path.iterdir())` sorts sibling paths, which (for POSIX
  `pathlib` comparison) coincides with sorting the entry names by
  code-point lexicographic order, i.e. Lean's `String` order.
* `hasIndex` is `QAbstractItemModel.hasIndex`: it returns `false` without
  touching the model when `row < 0` or `column < 0`, and otherwise checks
  `row < rowCount parent` and `column < columnCount parent`.
  An invalid `QModelIndex` has column `-1`.
-/

namespace FileTreeSpec

abbrev Path := List String

/-- The ambient filesystem as seen through `pathlib`. -/
structure FS where
  isDir : Path → Bool
  listdir : Path → Except Unit (List String)

/-- The mutable per-node state of a `FileTreeItem`: the ordered child entry
names standing for the `child_items` list, and the `loaded` flag. -/
structure NodeState where
  child_items : List String
  loaded : Bool
deriving DecidableEq, Repr

/-- The state `FileTreeItem.__init__` gives a fresh node. -/
def NodeState.init : NodeState := ⟨[], false⟩

abbrev Store := List (Path × NodeState)

/-- Read a node's state; an unregistered path reads as the fresh state. -/
def Store.get : Store → Path → NodeState
  | [], _ => NodeState.init
  | (q, st) :: s, p => if q = p then st else Store.get s p

/-- Overwrite a node's state. -/
def Store.set (s : Store) (p : Path) (st : NodeState) : Store :=
  (p, st) :: s

/-- The hard-coded ignore set of `load_children`. -/
def IGNORED : List String := ["__pycache__", "node_modules", "venv"]

/-- `name.startswith('.')`: the first character is the hidden marker. -/
def startsWithDot (name : String) : Bool :=
  match name.data with
  | [] => false
  | c :: _ => decide (c = '.')

/-- The filter condition of `load_children`:
`not child_path.name.startswith('.') and child_path.name not in {...}`. -/
def keepEntry (name : String) : Bool :=
  !(startsWithDot name) && !(decide (name ∈ IGNORED))

/-- Lexicographic code-point comparison of char lists: the order Python uses
on `str` (and hence, for sibling paths on POSIX, the order of
`sorted(self.path.iterdir())`). -/
def lexLe : List Char → List Char → Bool
  | [], _ => true
  | _ :: _, [] => false
  | a :: s, b :: t => if a = b then lexLe s t else decide (a < b)

/-- Lexicographic comparison of entry names (proved below to agree with
Lean's `String` order). -/
def nameLe (a b : String) : Bool := lexLe a.data b.data

/-- `sorted(...)` on sibling paths: sort the entry names lexicographically.
Python's `sorted` is a stable sort; since `nameLe` is total, transitive and
antisymmetric, every sort of a string list by it returns the same list, so
insertion sort is a faithful embedding of it. -/
def sortNames (names : List String) : List String :=
  names.insertionSort (fun a b => nameLe a b = true)

namespace FileTreeItem

/-- `FileTreeItem.load_children`.  If already loaded, no-op.  Otherwise, for a
directory, force the enumeration (`sorted(self.path.iterdir())`) — an
enumeration error propagates, leaving the state untouched — then append one
child per surviving entry in sorted order; finally mark loaded.  A
non-directory is marked loaded with no children. -/
def load_children (fs : FS) (s : Store) (p : Path) : Except Unit Store :=
  if (Store.get s p).loaded then .ok s
  else if fs.isDir p then
    match fs.listdir p with
    | .error e => .error e
    | .ok names =>
        .ok (Store.set s p ⟨(sortNames names).filter keepEntry, true⟩)
  else .ok (Store.set s p ⟨[], true⟩)

/-- `FileTreeItem.child`: bounds-checked access to `child_items`; it does not
consult the filesystem (its type has no `FS` argument and returns no store). -/
def child (s : Store) (p : Path) (row : Int) : Option Path :=
  let cs := (Store.get s p).child_items
  if row < 0 || (cs.length : Int) ≤ row then none
  else (cs[row.toNat]?).map (fun n => p ++ [n])

/-- `FileTreeItem.child_count`: `load_children` then the length of
`child_items`. -/
def child_count (fs : FS) (s : Store) (p : Path) :
    Except Unit (Store × Nat) :=
  match load_children fs s p with
  | .error e => .error e
  | .ok s' => .ok (s', (Store.get s' p).child_items.length)

/-- `FileTreeItem.row`: `0` for the root (no parent), otherwise the index of
this node in its parent's `child_items`. -/
def row (s : Store) (root_path p : Path) : Nat :=
  if p = root_path then 0
  else
    match p.getLast? with
    | some name =>
        (Store.get s p.dropLast).child_items.findIdx (fun n => n == name)
    | none => 0

end FileTreeItem

/-- A `QModelIndex`: invalid, or created by `createIndex(row, column, item)`
where the item is identified by its path. -/
inductive MIndex where
  | invalid : MIndex
  | valid : Int → Int → Path → MIndex
deriving DecidableEq, Repr

/-- `QModelIndex.column()`: `-1` for the invalid index. -/
def MIndex.column : MIndex → Int
  | .invalid => -1
  | .valid _ c _ => c

/-- `QModelIndex.isValid()`. -/
def MIndex.isValid : MIndex → Bool
  | .invalid => false
  | .valid _ _ _ => true

/-- A `FileTreeModel` instance: the root path chosen at construction and the
states of its node graph. -/
structure Model where
  root_path : Path
  store : Store
deriving DecidableEq, Repr

namespace Model

/-- `FileTreeModel.__init__(root_path)`: create the root node object only;
no filesystem access (this function takes no `FS`). -/
def init (root_path : Path) : Model := ⟨root_path, []⟩

/-- Resolve a parent index to its node: the invalid index denotes
`self.root_item`, a valid index its `internalPointer()`. -/
def nodeOf (m : Model) (idx : MIndex) : Path :=
  match idx with
  | .invalid => m.root_path
  | .valid _ _ p => p

/-- `FileTreeModel.rowCount`. -/
def rowCount (fs : FS) (m : Model) (parent : MIndex) :
    Except Unit (Model × Int) :=
  if parent.column > 0 then .ok (m, 0)
  else
    match FileTreeItem.child_count fs m.store (m.nodeOf parent) with
    | .error e => .error e
    | .ok (s', n) => .ok (⟨m.root_path, s'⟩, (n : Int))

/-- `FileTreeModel.columnCount`. -/
def columnCount (_m : Model) (_parent : MIndex) : Int := 1

/-- `QAbstractItemModel.hasIndex`: false outright on negative coordinates
(without calling `rowCount`), otherwise `row < rowCount parent` and
`column < columnCount parent`. -/
def hasIndex (fs : FS) (m : Model) (row col : Int) (parent : MIndex) :
    Except Unit (Model × Bool) :=
  if row < 0 || col < 0 then .ok (m, false)
  else
    match rowCount fs m parent with
    | .error e => .error e
    | .ok (m1, rc) =>
        if row < rc then .ok (m1, decide (col < columnCount m1 parent))
        else .ok (m1, false)

/-- `FileTreeModel.index`. -/
def index (fs : FS) (m : Model) (row col : Int) (parent : MIndex) :
    Except Unit (Model × MIndex) :=
  match hasIndex fs m row col parent with
  | .error e => .error e
  | .ok (m1, ok) =>
      if ok then
        match FileTreeItem.child m1.store (m1.nodeOf parent) row with
        | some c => .ok (m1, .valid row col c)
        | none => .ok (m1, .invalid)
      else .ok (m1, .invalid)

/-- `FileTreeModel.parent` on a valid child index: the owning node's address,
or the invalid index when the owner is the root item.  (The model never hands
out a valid index for the root itself, so the owner is `dropLast`.) -/
def parent (m : Model) (idx : MIndex) : MIndex :=
  match idx with
  | .invalid => .invalid
  | .valid _ _ p =>
      if p.dropLast = m.root_path then .invalid
      else
        .valid ((FileTreeItem.row m.store m.root_path p.dropLast : Int)) 0
          p.dropLast

/-- The data roles the source distinguishes. -/
inductive Role where
  | display : Role
  | other : Role
deriving DecidableEq, Repr

/-- `FileTreeModel.data`: the entry name for the display role, no value
otherwise. -/
def data (_m : Model) (idx : MIndex) (role : Role) : Option String :=
  match idx with
  | .invalid => none
  | .valid _ _ p =>
      match role with
      | .display => some ((p.getLast?).getD "")
      | .other => none

end Model

/-- The store operation `child_at` as the spec words it: "triggers
`materialize` implicitly, then returns the child at `row` or a `no such
child` result if `row` is out of bounds."  Written from the spec's words,
for comparison with the source's `FileTreeItem.child`. -/
def child_at_spec (fs : FS) (s : Store) (p : Path) (row : Int) :
    Except Unit (Store × Option Path) :=
  match FileTreeItem.load_children fs s p with
  | .error e => .error e
  | .ok s' => .ok (s', FileTreeItem.child s' p row)

/-! ## Concrete filesystems used as test inputs -/

/-- A root directory with entries `b`, `.git`, `A`, `venv`, `c`; everything
else is empty. -/
def fsDemo : FS :=
  ⟨fun p => decide (p = []),
   fun p => if p = [] then .ok ["b", ".git", "A", "venv", "c"] else .ok []⟩

/-- A filesystem whose every enumeration raises (e.g. permission denied). -/
def fsFail : FS :=
  ⟨fun _ => true, fun _ => .error ()⟩

/-- Root containing directory `src` (with `main.txt`) and file `README.md`. -/
def fsTwo : FS :=
  ⟨fun p => decide (p = [] ∨ p = ["src"]),
   fun p =>
     if p = [] then .ok ["README.md", "src"]
     else if p = ["src"] then .ok ["main.txt"]
     else .error ()⟩

/-- Root containing a regular file named `__pycache__` and a file `a`. -/
def fsPyFile : FS :=
  ⟨fun p => decide (p = []),
   fun p => if p = [] then .ok ["__pycache__", "a"] else .ok []⟩

/-- Root containing a directory named `__pycache__` and a file `a`. -/
def fsPyDir : FS :=
  ⟨fun p => decide (p = [] ∨ p = ["__pycache__"]),
   fun p => if p = [] then .ok ["__pycache__", "a"] else .ok []⟩

/-! ## The name order: totality, transitivity, agreement with `String` order -/

theorem lexLe_total : ∀ s t : List Char, lexLe s t = true ∨ lexLe t s = true
  | [], _ => Or.inl rfl
  | _ :: _, [] => Or.inr rfl
  | a :: s, b :: t => by
    by_cases hab : a = b
    · subst hab
      simpa [lexLe] using lexLe_total s t
    · rcases lt_or_gt_of_ne hab with h | h
      · left
        simp [lexLe, hab, h]
      · right
        have hba : b ≠ a := fun hba => hab hba.symm
        simp only [lexLe, if_neg hba]
        exact decide_eq_true h

theorem lexLe_trans :
    ∀ {s t u : List Char}, lexLe s t = true → lexLe t u = true →
      lexLe s u = true
  | [], _, _, _, _ => rfl
  | a :: s, b :: t, [], _, h2 => by cases h2
  | a :: s, [], u, h1, _ => by cases h1
  | a :: s, b :: t, c :: u, h1, h2 => by
    simp only [lexLe] at h1 h2 ⊢
    by_cases hab : a = b
    · subst hab
      rw [if_pos rfl] at h1
      by_cases hbc : a = c
      · subst hbc
        rw [if_pos rfl] at h2 ⊢
        exact lexLe_trans h1 h2
      · rw [if_neg hbc] at h2 ⊢
        exact h2
    · rw [if_neg hab] at h1
      have hab' : a < b := of_decide_eq_true h1
      by_cases hbc : b = c
      · subst hbc
        rw [if_neg hab]
        exact h1
      · have hbc' : b < c := of_decide_eq_true (by rwa [if_neg hbc] at h2)
        have hac : a < c := lt_trans hab' hbc'
        rw [if_neg (ne_of_lt hac)]
        exact decide_eq_true hac

theorem lexLe_iff_not_lex :
    ∀ s t : List Char, lexLe s t = true ↔ ¬ List.Lex (· < ·) t s
  | [], t => by
    simp [lexLe, List.Lex.not_nil_right]
  | a :: s, [] => by
    constructor
    · intro h
      cases h
    · intro h
      exact absurd List.Lex.nil h
  | a :: s, b :: t => by
    simp only [lexLe]
    by_cases hab : a = b
    · subst hab
      rw [if_pos rfl, lexLe_iff_not_lex s t]
      constructor
      · intro h hlex
        cases hlex with
        | cons h' => exact h h'
        | rel h' => exact absurd h' (lt_irrefl a)
      · intro h h'
        exact h (List.Lex.cons h')
    · rw [if_neg hab]
      constructor
      · intro h hlex
        have hab' : a < b := of_decide_eq_true h
        cases hlex with
        | cons _ => exact hab rfl
        | rel h' => exact absurd h' (not_lt_of_gt hab')
      · intro h
        rcases lt_or_gt_of_ne hab with hlt | hgt
        · exact decide_eq_true hlt
        · exact absurd
            (show List.Lex (· < ·) (b :: t) (a :: s) from List.Lex.rel hgt) h

/-- `nameLe` is exactly Lean's linear order on `String` (itself the
code-point lexicographic order). -/
theorem nameLe_iff_le (a b : String) : nameLe a b = true ↔ a ≤ b := by
  rw [String.le_iff_toList_le, ← not_lt]
  show lexLe a.data b.data = true ↔ ¬ b.toList < a.toList
  rw [lexLe_iff_not_lex]
  exact Iff.rfl

instance : IsTotal String (fun a b => nameLe a b = true) :=
  ⟨fun a b => lexLe_total a.data b.data⟩

instance : IsTrans String (fun a b => nameLe a b = true) :=
  ⟨fun _ _ _ h1 h2 => lexLe_trans h1 h2⟩

/-! ## Basic store and materialization lemmas -/

theorem Store.get_set_self (s : Store) (p : Path) (st : NodeState) :
    Store.get (Store.set s p st) p = st := by
  simp [Store.get, Store.set]

theorem Store.get_set_ne (s : Store) (p q : Path) (st : NodeState)
    (h : q ≠ p) : Store.get (Store.set s p st) q = Store.get s q := by
  simp only [Store.get, Store.set]
  rw [if_neg (fun hpq => h hpq.symm)]

theorem load_children_of_loaded (fs : FS) (s : Store) (p : Path)
    (h : (Store.get s p).loaded = true) :
    FileTreeItem.load_children fs s p = .ok s := by
  simp [FileTreeItem.load_children, h]

theorem load_children_ok_loaded (fs : FS) (s s' : Store) (p : Path)
    (h : FileTreeItem.load_children fs s p = .ok s') :
    (Store.get s' p).loaded = true := by
  unfold FileTreeItem.load_children at h
  by_cases hl : (Store.get s p).loaded
  · rw [if_pos hl] at h
    cases h
    exact hl
  · rw [if_neg hl] at h
    by_cases hd : fs.isDir p
    · rw [if_pos hd] at h
      cases he : fs.listdir p with
      | error e => rw [he] at h; cases h
      | ok names =>
          rw [he] at h
          cases h
          rw [Store.get_set_self]
    · rw [if_neg hd] at h
      cases h
      rw [Store.get_set_self]

theorem load_children_frame (fs : FS) (s s' : Store) (p : Path)
    (h : FileTreeItem.load_children fs s p = .ok s') :
    ∀ q, q ≠ p → Store.get s' q = Store.get s q := by
  intro q hq
  unfold FileTreeItem.load_children at h
  by_cases hl : (Store.get s p).loaded
  · rw [if_pos hl] at h
    cases h
    rfl
  · rw [if_neg hl] at h
    by_cases hd : fs.isDir p
    · rw [if_pos hd] at h
      cases he : fs.listdir p with
      | error e => rw [he] at h; cases h
      | ok names =>
          rw [he] at h
          cases h
          exact Store.get_set_ne _ _ _ _ hq
    · rw [if_neg hd] at h
      cases h
      exact Store.get_set_ne _ _ _ _ hq

theorem load_children_preserves_loaded (fs : FS) (s s' : Store) (q p : Path)
    (h : FileTreeItem.load_children fs s q = .ok s')
    (hp : (Store.get s p).loaded = true) :
    Store.get s' p = Store.get s p := by
  by_cases hpq : p = q
  · subst hpq
    rw [load_children_of_loaded fs s p hp] at h
    cases h
    rfl
  · exact load_children_frame fs s s' q h p hpq

theorem child_count_inv (fs : FS) (s s' : Store) (p : Path) (n : Nat)
    (h : FileTreeItem.child_count fs s p = .ok (s', n)) :
    FileTreeItem.load_children fs s p = .ok s' ∧
    n = (Store.get s' p).child_items.length := by
  unfold FileTreeItem.child_count at h
  split at h
  · cases h
  · cases h
    next heq => exact ⟨heq, rfl⟩

theorem rowCount_inv (fs : FS) (m : Model) (parent : MIndex) (m' : Model)
    (n : Int) (h : Model.rowCount fs m parent = .ok (m', n)) :
    m'.root_path = m.root_path ∧
    (m'.store = m.store ∨
      FileTreeItem.load_children fs m.store (m.nodeOf parent) =
        .ok m'.store) := by
  unfold Model.rowCount at h
  split at h
  · cases h
    exact ⟨rfl, Or.inl rfl⟩
  · split at h
    · cases h
    · cases h
      next heq =>
        exact ⟨rfl, Or.inr (child_count_inv fs m.store _ _ _ heq).1⟩

theorem hasIndex_inv (fs : FS) (m : Model) (row col : Int) (parent : MIndex)
    (m' : Model) (b : Bool)
    (h : Model.hasIndex fs m row col parent = .ok (m', b)) :
    m'.root_path = m.root_path ∧
    (m'.store = m.store ∨
      FileTreeItem.load_children fs m.store (m.nodeOf parent) =
        .ok m'.store) := by
  unfold Model.hasIndex at h
  split at h
  · cases h
    exact ⟨rfl, Or.inl rfl⟩
  · split at h
    · cases h
    · next heq =>
        split at h
        · cases h
          exact rowCount_inv fs m parent _ _ heq
        · cases h
          exact rowCount_inv fs m parent _ _ heq

theorem index_inv (fs : FS) (m : Model) (r c : Int) (parent : MIndex)
    (m' : Model) (i : MIndex)
    (h : Model.index fs m r c parent = .ok (m', i)) :
    m'.root_path = m.root_path ∧
    (m'.store = m.store ∨
      FileTreeItem.load_children fs m.store (m.nodeOf parent) =
        .ok m'.store) := by
  unfold Model.index at h
  split at h
  · cases h
  · next heq =>
      split at h
      · split at h
        · cases h
          exact hasIndex_inv fs m r c parent _ _ heq
        · cases h
          exact hasIndex_inv fs m r c parent _ _ heq
      · cases h
        exact hasIndex_inv fs m r c parent _ _ heq

theorem findIdx_beq_of_mem :
    ∀ (cs : List String) (name : String), name ∈ cs →
      cs.findIdx (fun n => n == name) < cs.length ∧
      cs[cs.findIdx (fun n => n == name)]? = some name
  | [], name, h => absurd h (List.not_mem_nil name)
  | a :: t, name, h => by
    rw [List.findIdx_cons]
    by_cases ha : a = name
    · subst ha
      simp
    · have hb : (a == name) = false := beq_eq_false_iff_ne.mpr ha
      rw [hb]
      simp only [cond_false]
      have hmem : name ∈ t := by
        cases h with
        | head => exact absurd rfl ha
        | tail _ h' => exact h'
      have ih := findIdx_beq_of_mem t name hmem
      refine ⟨by simpa [Nat.succ_lt_succ_iff] using ih.1, ?_⟩
      simpa using ih.2

/-! ## The claims -/

/-- **C1, counterexample.**  The claim states that an enumeration failure at
materialization is caught locally inside `materialize` (`load_children`),
the node marked loaded with an empty child sequence, and that no exception
propagates out of `materialize`, `child_count` or any adapter operation.
On a filesystem whose enumeration raises (`fsFail`), the source has no
handler around `sorted(self.path.iterdir())`, so the exception escapes
`load_children`, `child_count`, `rowCount` and `index`. -/
theorem C1_counterexample :
    FileTreeItem.load_children fsFail [] [] = .error () ∧
    FileTreeItem.child_count fsFail [] [] = .error () ∧
    Model.rowCount fsFail (Model.init []) .invalid = .error () ∧
    Model.index fsFail (Model.init []) 0 0 .invalid = .error () :=
  ⟨rfl, rfl, rfl, rfl⟩

/-- **C1, amended.**  When enumerating an unloaded directory node fails, the
exception propagates out of `materialize` (`load_children`) and hence out of
`child_count` and the adapter's `row_count`; the node is not marked loaded
and no store update is returned.  (Only `FileTreeItem.child` cannot raise:
it never enumerates.) -/
theorem C1_enumeration_failure_propagates
    (fs : FS) (m : Model) (parent : MIndex)
    (hnl : (Store.get m.store (m.nodeOf parent)).loaded = false)
    (hdir : fs.isDir (m.nodeOf parent) = true)
    (herr : fs.listdir (m.nodeOf parent) = .error ())
    (hcol : parent.column ≤ 0) :
    FileTreeItem.load_children fs m.store (m.nodeOf parent) = .error () ∧
    FileTreeItem.child_count fs m.store (m.nodeOf parent) = .error () ∧
    Model.rowCount fs m parent = .error () := by
  have h1 : FileTreeItem.load_children fs m.store (m.nodeOf parent) =
      .error () := by
    unfold FileTreeItem.load_children
    rw [if_neg (by simp [hnl]), if_pos hdir, herr]
  have h2 : FileTreeItem.child_count fs m.store (m.nodeOf parent) =
      .error () := by
    unfold FileTreeItem.child_count
    rw [h1]
  refine ⟨h1, h2, ?_⟩
  unfold Model.rowCount
  rw [if_neg (not_lt.mpr hcol), h2]

/-- Witness for `C1_enumeration_failure_propagates` at `fsFail`, the empty
store and the root address. -/
theorem C1_witness :
    FileTreeItem.load_children fsFail (Model.init []).store [] = .error () ∧
    FileTreeItem.child_count fsFail (Model.init []).store [] = .error () ∧
    Model.rowCount fsFail (Model.init []) .invalid = .error () :=
  C1_enumeration_failure_propagates fsFail (Model.init []) .invalid rfl rfl
    rfl (by decide)

/-- **C2, counterexample.**  The claim states `child_at(node, row)` first
triggers `materialize` implicitly and then returns the child at `row`.  The
source's `FileTreeItem.child` performs no materialization at all (it takes
no filesystem and returns no store): on the unmaterialized root of `fsDemo`
(a directory with three surviving entries) it returns `none` for row `0`,
whereas the spec-worded `child_at_spec` returns the first child. -/
theorem C2_counterexample :
    FileTreeItem.child ([] : Store) ([] : Path) 0 = none ∧
    child_at_spec fsDemo [] [] 0 =
      .ok ([([], ⟨["A", "b", "c"], true⟩)], some ["A"]) :=
  ⟨rfl, rfl⟩

/-- **C2, amended.**  `child_at(node, row)` does not materialize: it reads
the node's currently materialized children, returning `none` when `row` is
negative or not less than their number, and the child at position `row`
otherwise.  (Materialization before the lookup happens only in the adapter,
via `hasIndex`/`rowCount` inside `FileTreeModel.index`.) -/
theorem C2_child_reads_current_children (s : Store) (p : Path) (row : Int) :
    (row < 0 ∨ ((Store.get s p).child_items.length : Int) ≤ row →
      FileTreeItem.child s p row = none) ∧
    (∀ k : Nat, row = (k : Int) →
      ∀ h : k < (Store.get s p).child_items.length,
        FileTreeItem.child s p row =
          some (p ++ [(Store.get s p).child_items[k]])) := by
  constructor
  · intro hout
    unfold FileTreeItem.child
    rw [if_pos]
    rcases hout with h | h
    · simp [h]
    · simp [h]
  · intro k hk h
    subst hk
    unfold FileTreeItem.child
    rw [if_neg]
    · simp [List.getElem?_eq_getElem h]
    · simp only [Bool.or_eq_true, decide_eq_true_eq, not_or, not_lt, not_le]
      constructor
      · exact Int.ofNat_nonneg k
      · exact_mod_cast h

/-- Witness for `C2_child_reads_current_children` on a store whose root is
loaded with children `A`, `b`, `c`: row `5` is out of bounds, row `1` is
`b`. -/
theorem C2_witness :
    FileTreeItem.child [([], ⟨["A", "b", "c"], true⟩)] [] 5 = none ∧
    FileTreeItem.child [([], ⟨["A", "b", "c"], true⟩)] [] 1 = some ["b"] :=
  ⟨(C2_child_reads_current_children [([], ⟨["A", "b", "c"], true⟩)] [] 5).1
      (Or.inr (by decide)),
   (C2_child_reads_current_children [([], ⟨["A", "b", "c"], true⟩)] [] 1).2
      1 rfl (by decide)⟩

/-- **C3.**  After constructing the model on a root directory `D` and making
one `rowCount` call on the root address, the returned count equals the
number of direct entries of `D` whose name does not start with `.` and is
not in the denylist `{__pycache__, node_modules, venv}` — that is,
`names.countP keepEntry`. -/
theorem C3_row_count_counts_kept_entries
    (fs : FS) (D : Path) (names : List String)
    (hdir : fs.isDir D = true) (hls : fs.listdir D = .ok names) :
    ∃ m', Model.rowCount fs (Model.init D) .invalid =
      .ok (m', (names.countP keepEntry : Int)) := by
  refine ⟨⟨D, Store.set [] D ⟨(sortNames names).filter keepEntry, true⟩⟩, ?_⟩
  have hload : FileTreeItem.load_children fs [] D =
      .ok (Store.set [] D ⟨(sortNames names).filter keepEntry, true⟩) := by
    unfold FileTreeItem.load_children
    rw [if_neg (by simp [Store.get, NodeState.init]), if_pos hdir, hls]
  have hcount : ((sortNames names).filter keepEntry).length =
      names.countP keepEntry := by
    calc ((sortNames names).filter keepEntry).length
        = (sortNames names).countP keepEntry :=
          (List.countP_eq_length_filter _ _).symm
      _ = names.countP keepEntry :=
          (List.perm_insertionSort _ names).countP_eq keepEntry
  unfold Model.rowCount FileTreeItem.child_count
  rw [show Model.nodeOf (Model.init D) .invalid = D from rfl,
    show (Model.init D).store = ([] : Store) from rfl,
    if_neg (by decide), hload]
  show Except.ok
      ((⟨D, Store.set [] D ⟨(sortNames names).filter keepEntry, true⟩⟩ :
          Model),
        ((Store.get
            (Store.set [] D ⟨(sortNames names).filter keepEntry, true⟩)
            D).child_items.length : Int)) = _
  rw [Store.get_set_self, hcount]

/-- Witness for `C3_row_count_counts_kept_entries` on `fsDemo`, whose root
has five entries of which `b`, `A`, `c` survive the filter. -/
theorem C3_witness :
    ∃ m', Model.rowCount fsDemo (Model.init []) .invalid = .ok (m', 3) :=
  C3_row_count_counts_kept_entries fsDemo []
    ["b", ".git", "A", "venv", "c"] rfl rfl

/-- **C4.**  Materializing an unloaded node populates its children in the
lexicographic order of the entry names (`≤` on `String`, the code-point
order; case-sensitivity is the POSIX, case-sensitive comparison of the
embedding), and the order is stable: a repeated materialization of the same
node returns the identical store, hence the identical children sequence. -/
theorem C4_children_sorted_and_stable
    (fs : FS) (s s' : Store) (p : Path)
    (hnl : (Store.get s p).loaded = false)
    (h : FileTreeItem.load_children fs s p = .ok s') :
    List.Pairwise (fun a b : String => a ≤ b)
      (Store.get s' p).child_items ∧
    FileTreeItem.load_children fs s' p = .ok s' := by
  refine ⟨?_, load_children_of_loaded fs s' p
    (load_children_ok_loaded fs s s' p h)⟩
  unfold FileTreeItem.load_children at h
  rw [if_neg (by simp [hnl])] at h
  split at h
  · split at h
    · cases h
    · rename_i names heq
      cases h
      rw [Store.get_set_self]
      have hs : List.Pairwise (fun a b => nameLe a b = true)
          (sortNames names) :=
        List.sorted_insertionSort (fun a b => nameLe a b = true) names
      have hf : List.Pairwise (fun a b => nameLe a b = true)
          ((sortNames names).filter keepEntry) :=
        hs.sublist (List.filter_sublist _)
      exact hf.imp (fun hab => (nameLe_iff_le _ _).mp hab)
  · cases h
    rw [Store.get_set_self]
    exact List.Pairwise.nil

/-- Witness for `C4_children_sorted_and_stable` on `fsDemo`: materializing
the fresh root gives children `A`, `b`, `c`, sorted, and a second
materialization is a no-op. -/
theorem C4_witness :
    List.Pairwise (fun a b : String => a ≤ b)
      (Store.get [([], ⟨["A", "b", "c"], true⟩)] []).child_items ∧
    FileTreeItem.load_children fsDemo [([], ⟨["A", "b", "c"], true⟩)] [] =
      .ok [([], ⟨["A", "b", "c"], true⟩)] :=
  C4_children_sorted_and_stable fsDemo [] [([], ⟨["A", "b", "c"], true⟩)]
    [] rfl rfl

/-- **C5.**  Materialization is idempotent: after a successful
`load_children` producing store `s'`, the node is loaded, a second
`load_children` is a no-op returning the identical store (same children:
nothing duplicated, nothing reordered, no re-enumeration — the no-op branch
is taken before the filesystem is consulted), and `child_count` computed on
`s'` leaves the store untouched. -/
theorem C5_materialize_idempotent
    (fs : FS) (s s' : Store) (p : Path)
    (h : FileTreeItem.load_children fs s p = .ok s') :
    FileTreeItem.load_children fs s' p = .ok s' ∧
    FileTreeItem.child_count fs s' p =
      .ok (s', (Store.get s' p).child_items.length) := by
  have hl := load_children_ok_loaded fs s s' p h
  have h2 := load_children_of_loaded fs s' p hl
  refine ⟨h2, ?_⟩
  unfold FileTreeItem.child_count
  rw [h2]

/-- Witness for `C5_materialize_idempotent`: re-materializing the `fsDemo`
root after its first materialization changes nothing. -/
theorem C5_witness :
    FileTreeItem.load_children fsDemo [([], ⟨["A", "b", "c"], true⟩)] [] =
      .ok [([], ⟨["A", "b", "c"], true⟩)] ∧
    FileTreeItem.child_count fsDemo [([], ⟨["A", "b", "c"], true⟩)] [] =
      .ok ([([], ⟨["A", "b", "c"], true⟩)], 3) :=
  C5_materialize_idempotent fsDemo [] [([], ⟨["A", "b", "c"], true⟩)] [] rfl

/-- **C6.**  Parent/child round trip: for a non-root node `N = p ++ [name]`
whose parent `p` is materialized with `name` among its children, `row_of N`
(the source's `FileTreeItem.row`) is a position of `N`'s name in the
parent's children sequence, and `index_for(row_of N, 0, parent_of(address
of N))` resolves back to the address of `N`, leaving the model unchanged. -/
theorem C6_parent_child_round_trip
    (fs : FS) (m : Model) (p : Path) (name : String) (r c : Int)
    (hload : (Store.get m.store p).loaded = true)
    (hmem : name ∈ (Store.get m.store p).child_items)
    (hnroot : p ++ [name] ≠ m.root_path) :
    (Store.get m.store p).child_items[
        FileTreeItem.row m.store m.root_path (p ++ [name])]? = some name ∧
    Model.index fs m
        ((FileTreeItem.row m.store m.root_path (p ++ [name]) : Nat) : Int) 0
        (Model.parent m (.valid r c (p ++ [name]))) =
      .ok (m, .valid
        ((FileTreeItem.row m.store m.root_path (p ++ [name]) : Nat) : Int)
        0 (p ++ [name])) := by
  have hrow : FileTreeItem.row m.store m.root_path (p ++ [name]) =
      (Store.get m.store p).child_items.findIdx (fun n => n == name) := by
    unfold FileTreeItem.row
    rw [if_neg hnroot, List.getLast?_concat, List.dropLast_concat]
  have hidx := findIdx_beq_of_mem (Store.get m.store p).child_items name hmem
  refine ⟨by rw [hrow]; exact hidx.2, ?_⟩
  set P := Model.parent m (.valid r c (p ++ [name])) with hP
  have hPeq : P = if p = m.root_path then MIndex.invalid
      else MIndex.valid
        ((FileTreeItem.row m.store m.root_path p : Nat) : Int) 0 p := by
    rw [hP]
    show (if (p ++ [name]).dropLast = m.root_path then MIndex.invalid
      else MIndex.valid
        ((FileTreeItem.row m.store m.root_path
          ((p ++ [name]).dropLast) : Nat) : Int) 0
        ((p ++ [name]).dropLast)) = _
    rw [List.dropLast_concat]
  have hnode : Model.nodeOf m P = p := by
    rw [hPeq]
    by_cases hp : p = m.root_path
    · rw [if_pos hp]
      exact hp.symm
    · rw [if_neg hp]
      rfl
  have hcol : P.column ≤ 0 := by
    rw [hPeq]
    by_cases hp : p = m.root_path
    · rw [if_pos hp]
      decide
    · rw [if_neg hp]
      exact le_refl 0
  set k := (Store.get m.store p).child_items.findIdx (fun n => n == name)
    with hk
  have hcc : FileTreeItem.child_count fs m.store p =
      .ok (m.store, (Store.get m.store p).child_items.length) := by
    unfold FileTreeItem.child_count
    rw [load_children_of_loaded fs m.store p hload]
  have hrc : Model.rowCount fs m P =
      .ok (m, ((Store.get m.store p).child_items.length : Int)) := by
    unfold Model.rowCount
    rw [if_neg (not_lt.mpr hcol), hnode, hcc]
  have hklt : ((k : Nat) : Int) < ((Store.get m.store p).child_items.length : Int) := by
    exact_mod_cast hidx.1
  have hhi : Model.hasIndex fs m ((k : Nat) : Int) 0 P = .ok (m, true) := by
    unfold Model.hasIndex
    rw [if_neg (by simp), hrc]
    show (if ((k : Nat) : Int) <
          ((Store.get m.store p).child_items.length : Int) then
        Except.ok (m, decide ((0 : Int) < Model.columnCount m P))
      else Except.ok (m, false)) = Except.ok (m, true)
    rw [if_pos hklt]
    rfl
  have hchild : FileTreeItem.child m.store p ((k : Nat) : Int) =
      some (p ++ [name]) := by
    unfold FileTreeItem.child
    rw [if_neg]
    · simp only [Int.toNat_natCast]
      rw [hidx.2]
      rfl
    · simp only [Bool.or_eq_true, decide_eq_true_eq, not_or, not_lt, not_le]
      exact ⟨Int.natCast_nonneg k, hklt⟩
  rw [hrow]
  unfold Model.index
  rw [hhi]
  simp only [hnode, hchild, if_true]

/-- Witness for `C6_parent_child_round_trip`: on the materialized `fsTwo`
root, the node `src` sits at row 1 and `index_for(1, 0, root address)`
resolves back to it. -/
theorem C6_witness :
    (Store.get [([], ⟨["README.md", "src"], true⟩)] []).child_items[
        FileTreeItem.row [([], ⟨["README.md", "src"], true⟩)] [] ["src"]]? =
      some "src" ∧
    Model.index fsTwo ⟨[], [([], ⟨["README.md", "src"], true⟩)]⟩ 1 0
        (Model.parent ⟨[], [([], ⟨["README.md", "src"], true⟩)]⟩
          (.valid 0 0 ["src"])) =
      .ok (⟨[], [([], ⟨["README.md", "src"], true⟩)]⟩,
        .valid 1 0 ["src"]) :=
  C6_parent_child_round_trip fsTwo
    ⟨[], [([], ⟨["README.md", "src"], true⟩)]⟩ [] "src" 0 0 rfl
    (by decide) (by decide)

/-- **C7.**  Single-level laziness: one `rowCount` or `index` call changes
the state of no node other than the one the parent address denotes; in
particular every newly constructed child still reads as unloaded with empty
children (`NodeState.init`, the read of any unregistered path). -/
theorem C7_single_level_materialization
    (fs : FS) (m : Model) (parent : MIndex) :
    (∀ m' n, Model.rowCount fs m parent = .ok (m', n) →
      ∀ q, q ≠ m.nodeOf parent →
        Store.get m'.store q = Store.get m.store q) ∧
    (∀ r c m' i, Model.index fs m r c parent = .ok (m', i) →
      ∀ q, q ≠ m.nodeOf parent →
        Store.get m'.store q = Store.get m.store q) := by
  constructor
  · intro m' n h q hq
    rcases (rowCount_inv fs m parent m' n h).2 with heq | hld
    · rw [heq]
    · exact load_children_frame fs m.store m'.store _ hld q hq
  · intro r c m' i h q hq
    rcases (index_inv fs m r c parent m' i h).2 with heq | hld
    · rw [heq]
    · exact load_children_frame fs m.store m'.store _ hld q hq

/-- Witness for `C7_single_level_materialization`: materializing the `fsTwo`
root via `rowCount` leaves the (new) child node `src` in the fresh,
unloaded state. -/
theorem C7_witness :
    Store.get [([], ⟨["README.md", "src"], true⟩)] ["src"] =
      Store.get ([] : Store) ["src"] :=
  (C7_single_level_materialization fsTwo (Model.init []) .invalid).1
    ⟨[], [([], ⟨["README.md", "src"], true⟩)]⟩ 2 rfl ["src"] (by decide)

/-- **C8.**  A node's populated children are never mutated again: once a
node is loaded, every store operation (`load_children`, `child_count` — on
any node) and every adapter operation (`rowCount`, `index` — at any
address) leaves that node's state, children included, unchanged.
(`FileTreeItem.child`, `FileTreeItem.row`, `Model.parent` and `Model.data`
take and return no store at all, so they cannot mutate it.) -/
theorem C8_loaded_children_immutable
    (fs : FS) (m : Model) (p : Path)
    (hl : (Store.get m.store p).loaded = true) :
    (∀ q s', FileTreeItem.load_children fs m.store q = .ok s' →
      Store.get s' p = Store.get m.store p) ∧
    (∀ q s' n, FileTreeItem.child_count fs m.store q = .ok (s', n) →
      Store.get s' p = Store.get m.store p) ∧
    (∀ parent m' n, Model.rowCount fs m parent = .ok (m', n) →
      Store.get m'.store p = Store.get m.store p) ∧
    (∀ r c parent m' i, Model.index fs m r c parent = .ok (m', i) →
      Store.get m'.store p = Store.get m.store p) := by
  refine ⟨?_, ?_, ?_, ?_⟩
  · intro q s' h
    exact load_children_preserves_loaded fs m.store s' q p h hl
  · intro q s' n h
    exact load_children_preserves_loaded fs m.store s' q p
      (child_count_inv fs m.store s' q n h).1 hl
  · intro parent m' n h
    rcases (rowCount_inv fs m parent m' n h).2 with heq | hld
    · rw [heq]
    · exact load_children_preserves_loaded fs m.store m'.store _ p hld hl
  · intro r c parent m' i h
    rcases (index_inv fs m r c parent m' i h).2 with heq | hld
    · rw [heq]
    · exact load_children_preserves_loaded fs m.store m'.store _ p hld hl

/-- Witness for `C8_loaded_children_immutable`: materializing `src` via
`child_count` leaves the already-loaded root state byte-for-byte intact. -/
theorem C8_witness :
    Store.get ((["src"], ⟨["main.txt"], true⟩) ::
        [([], ⟨["README.md", "src"], true⟩)]) [] =
      Store.get [([], ⟨["README.md", "src"], true⟩)] [] :=
  (C8_loaded_children_immutable fsTwo
      ⟨[], [([], ⟨["README.md", "src"], true⟩)]⟩ [] rfl).2.1
    ["src"] ((["src"], ⟨["main.txt"], true⟩) ::
      [([], ⟨["README.md", "src"], true⟩)]) 1 rfl

/-- **C9.**  Constructing the model on a non-existent root succeeds without
touching the filesystem (`Model.init` takes no `FS` argument at all); the
root's first materialization — `pathlib.is_dir` is `false` on a missing
path — yields zero children rather than an error, so `rowCount` on the root
address returns `0` and the node ends up loaded and empty. -/
theorem C9_nonexistent_root (fs : FS) (D : Path)
    (h : fs.isDir D = false) :
    FileTreeItem.load_children fs (Model.init D).store D =
      .ok [(D, ⟨[], true⟩)] ∧
    Model.rowCount fs (Model.init D) .invalid =
      .ok (⟨D, [(D, ⟨[], true⟩)]⟩, 0) := by
  have h1 : FileTreeItem.load_children fs ([] : Store) D =
      .ok [(D, ⟨[], true⟩)] := by
    unfold FileTreeItem.load_children
    rw [if_neg (by simp [Store.get, NodeState.init]), if_neg (by simp [h])]
    rfl
  refine ⟨h1, ?_⟩
  unfold Model.rowCount FileTreeItem.child_count
  rw [show Model.nodeOf (Model.init D) .invalid = D from rfl,
    show (Model.init D).store = ([] : Store) from rfl,
    if_neg (by decide), h1]
  show Except.ok ((⟨D, [(D, ⟨[], true⟩)]⟩ : Model),
      ((Store.get [(D, ⟨[], true⟩)] D).child_items.length : Int)) = _
  rw [show Store.get [(D, ⟨[], true⟩)] D = (⟨[], true⟩ : NodeState) from
    by simp [Store.get]]
  rfl

/-- Witness for `C9_nonexistent_root` at the path `missing`, absent from
`fsDemo`. -/
theorem C9_witness :
    FileTreeItem.load_children fsDemo (Model.init ["missing"]).store
        ["missing"] = .ok [(["missing"], ⟨[], true⟩)] ∧
    Model.rowCount fsDemo (Model.init ["missing"]) .invalid =
      .ok (⟨["missing"], [(["missing"], ⟨[], true⟩)]⟩, 0) :=
  C9_nonexistent_root fsDemo ["missing"] rfl

/-- **C10.**  The exclusion rules are applied to the entry name alone,
regardless of the entry's type: materialization returns the same result for
two filesystems that agree on the parent's entry listing but classify the
entries' types arbitrarily (e.g. `__pycache__` a regular file in one and a
directory in the other), and a denylisted name never appears among the
children. -/
theorem C10_denylist_applies_by_name
    (fs fs2 : FS) (s : Store) (p : Path) (names : List String)
    (hnl : (Store.get s p).loaded = false)
    (hdir : fs.isDir p = true) (hls : fs.listdir p = .ok names)
    (hdir2 : fs2.isDir p = true) (hls2 : fs2.listdir p = .ok names) :
    FileTreeItem.load_children fs s p =
      FileTreeItem.load_children fs2 s p ∧
    (∀ s', FileTreeItem.load_children fs s p = .ok s' →
      ∀ name, name ∈ IGNORED →
        name ∉ (Store.get s' p).child_items) := by
  have hload : ∀ (g : FS), g.isDir p = true → g.listdir p = .ok names →
      FileTreeItem.load_children g s p =
        .ok (Store.set s p ⟨(sortNames names).filter keepEntry, true⟩) := by
    intro g hgd hgl
    unfold FileTreeItem.load_children
    rw [if_neg (by simp [hnl]), if_pos hgd, hgl]
  refine ⟨(hload fs hdir hls).trans (hload fs2 hdir2 hls2).symm, ?_⟩
  intro s' h name hdeny hmem
  rw [hload fs hdir hls] at h
  cases h
  rw [Store.get_set_self] at hmem
  have hkeep : keepEntry name = true := (List.mem_filter.mp hmem).2
  unfold keepEntry at hkeep
  rw [decide_eq_true hdeny] at hkeep
  simp at hkeep

/-- Witness for `C10_denylist_applies_by_name`: `__pycache__` is a regular
file in `fsPyFile` and a directory in `fsPyDir`; both materialize the root
to the single child `a`, and `__pycache__` is excluded. -/
theorem C10_witness :
    FileTreeItem.load_children fsPyFile [] [] =
      FileTreeItem.load_children fsPyDir [] [] ∧
    "__pycache__" ∉
      (Store.get [([], ⟨["a"], true⟩)] []).child_items :=
  ⟨(C10_denylist_applies_by_name fsPyFile fsPyDir [] []
      ["__pycache__", "a"] rfl rfl rfl rfl rfl).1,
   (C10_denylist_applies_by_name fsPyFile fsPyDir [] []
      ["__pycache__", "a"] rfl rfl rfl rfl rfl).2
     [([], ⟨["a"], true⟩)] rfl "__pycache__" (by decide)⟩

end FileTreeSpec
